import Mathlib

/-!
Verification of the core of the `urlshortner` repository (src/app.js).

The file shallowly embeds the algorithmic core of the `URLShortener` class:

* `encodeBase62` — the base-62 code generator (`encodeBase62`, app.js 74-83);
* the validator — `normalizeURL`, `isValidURL`, `validateAndNormalizeURL`
  (app.js 86-115), with the URL-validation regular expression of app.js line 4
  translated into an explicit backtracking matcher, and the browser builtin
  `new URL()` parse check modelled from the spec;
* the registry — `shortenURL` (app.js 118-161, restricted to its state
  transition), `redirectToOriginal` (app.js 235-259) and `updateStats`
  (app.js 288-295), with the JavaScript `Map` embedded as an association
  list in insertion order.

Theorems about these definitions settle the behavioural claims of the
specification: the test vectors of the code generator, its injectivity and
shortlex monotonicity, the validator's error discipline, and the registry's
invariants under registration and resolution.
-/

namespace UrlShortner

/-- The base-62 alphabet of the shortener, app.js line 3:
`'0123456789ABCDEFGHIJKLMNOPQRSTUVWXYZabcdefghijklmnopqrstuvwxyz'`. -/
def base62Alphabet : String :=
  "0123456789ABCDEFGHIJKLMNOPQRSTUVWXYZabcdefghijklmnopqrstuvwxyz"

/-- Indexing `this.base62Alphabet[d]` (always called with `d = num % 62`,
so the default is never reached). -/
def digitChar62 (d : Nat) : Char :=
  base62Alphabet.data.getD d '0'

/-- The `while (num > 0)` loop of `encodeBase62` (app.js 77-81):
`encoded = this.base62Alphabet[num % 62] + encoded; num = Math.floor(num / 62)`.
The first argument is fuel bounding the number of iterations; the loop runs
at most `num` times since `num` strictly decreases, so the caller passes
`num` itself. -/
def encodeBase62Aux : Nat → Nat → List Char → List Char
  | 0, _, encoded => encoded
  | fuel + 1, num, encoded =>
    if num = 0 then encoded
    else encodeBase62Aux fuel (num / 62) (digitChar62 (num % 62) :: encoded)

/-- `encodeBase62(num)` (app.js 74-83): returns `this.base62Alphabet[0]`
when `num === 0`, otherwise the base-62 digits of `num`, most significant
first. -/
def encodeBase62 (num : Nat) : String :=
  if num = 0 then String.singleton (base62Alphabet.data.getD 0 '0')
  else String.mk (encodeBase62Aux num num [])

/-- C2 counterexample: the claim asserts `encode(61) == "Z"`, but in the
alphabet order `0-9A-Za-z` index 61 is the last lowercase letter, so the
code returns `"z"` (`"Z"` sits at index 35). -/
theorem encodeBase62_61_cex :
    encodeBase62 61 = "z" ∧ encodeBase62 61 ≠ "Z" := by
  constructor
  · rfl
  · decide

/-- C2 (amended): the code generator's test vectors under the alphabet order
`0-9A-Za-z`: `encode(1) = "1"`, `encode(62) = "10"`, `encode(61) = "z"`,
`encode(10) = "A"`, `encode(36) = "a"`, and `encode(0)` returns the first
alphabet symbol `"0"`. -/
theorem encodeBase62_test_vectors :
    encodeBase62 1 = "1" ∧ encodeBase62 62 = "10" ∧ encodeBase62 61 = "z" ∧
    encodeBase62 10 = "A" ∧ encodeBase62 36 = "a" ∧ encodeBase62 0 = "0" := by
  refine ⟨rfl, rfl, rfl, rfl, rfl, rfl⟩

/-- ASCII whitespace trimmed by JavaScript `String.prototype.trim` (space,
tab, line feed, carriage return, vertical tab, form feed). -/
def isJsSpace (c : Char) : Bool :=
  c = ' ' || c = '\t' || c = '\n' || c = '\r' || c = '\x0B' || c = '\x0C'

/-- `url.trim()`: remove whitespace from both ends. -/
def jsTrim (s : String) : String :=
  String.mk (((s.data.dropWhile isJsSpace).reverse.dropWhile isJsSpace).reverse)

/-- ASCII lowercasing, used to model the `i` flag of `/^https?:\/\//i`. -/
def jsToLower (s : String) : String :=
  String.mk (s.data.map Char.toLower)

/-- Strip a literal pattern from the front of a character list, returning the
remainder on success. -/
def stripPfx : List Char → List Char → Option (List Char)
  | [], cs => some cs
  | _ :: _, [] => none
  | p :: ps, c :: cs => if c = p then stripPfx ps cs else none

/-- The test `/^https?:\/\//i.test(url)` of `normalizeURL` (app.js 97):
the input starts, case-insensitively, with `http://` or `https://`. -/
def hasHttpScheme (s : String) : Bool :=
  (stripPfx "http://".data (jsToLower s).data).isSome ||
  (stripPfx "https://".data (jsToLower s).data).isSome

/-- Character class `[-a-zA-Z0-9@:%._\+~#=]` of the validation regex. -/
def isClassA (c : Char) : Bool :=
  c = '-' || c.isAlpha || c.isDigit || c = '@' || c = ':' || c = '%' ||
  c = '.' || c = '_' || c = '+' || c = '~' || c = '#' || c = '='

/-- Character class `[a-zA-Z0-9()]` of the validation regex. -/
def isClassB (c : Char) : Bool :=
  c.isAlpha || c.isDigit || c = '(' || c = ')'

/-- Character class `[-a-zA-Z0-9()@:%_\+.~#?&\/=]` of the validation regex. -/
def isClassC (c : Char) : Bool :=
  c = '-' || c.isAlpha || c.isDigit || c = '(' || c = ')' || c = '@' ||
  c = ':' || c = '%' || c = '_' || c = '+' || c = '.' || c = '~' ||
  c = '#' || c = '?' || c = '&' || c = '/' || c = '='

/-- JavaScript word character (`\w` without the `u` flag), used by the `\b`
assertion of the validation regex. -/
def isWordChar (c : Char) : Bool :=
  c.isAlpha || c.isDigit || c = '_'

/-- Tail of the validation regex after the top-level-domain part: the `\b`
assertion between `prev` (the last character matched by `[a-zA-Z0-9()]{1,6}`)
and the rest, then `(?:[-a-zA-Z0-9()@:%_\+.~#?&\/=]*)$`. -/
def matchBoundSuffix (prev : Char) (cs : List Char) : Bool :=
  (match cs with
   | [] => isWordChar prev
   | c :: _ => isWordChar prev != isWordChar c) && cs.all isClassC

/-- Matcher for `[a-zA-Z0-9()]{1,6}` followed by the boundary and suffix;
`n` is the remaining repetition budget (called with 6), and all split points
are tried, which decides the same language as the backtracking regex. -/
def matchTld : List Char → Nat → Bool
  | [], _ => false
  | c :: rest, n =>
    isClassB c && (matchBoundSuffix c rest || (decide (1 < n) && matchTld rest (n - 1)))

/-- Matcher for `[-a-zA-Z0-9@:%._\+~#=]{1,256}\.` followed by the
top-level-domain part; `n` is the remaining repetition budget (called
with 256). -/
def matchHost : List Char → Nat → Bool
  | [], _ => false
  | c :: rest, n =>
    isClassA c &&
      ((match rest with
        | '.' :: r2 => matchTld r2 6
        | _ => false) ||
       (decide (1 < n) && matchHost rest (n - 1)))

/-- Matcher for the part of the validation regex after the scheme:
`(?:www\.)?` then host, dot, top-level domain, boundary and suffix. -/
def matchAfterScheme (cs : List Char) : Bool :=
  matchHost cs 256 ||
  (match stripPfx "www.".data cs with
   | some rest => matchHost rest 256
   | none => false)

/-- `this.urlValidationRegex.test(url)` (app.js line 4): a full-match test of
`/^https?:\/\/(?:www\.)?[-a-zA-Z0-9@:%._\+~#=]{1,256}\.[a-zA-Z0-9()]{1,6}\b(?:[-a-zA-Z0-9()@:%_\+.~#?&\/=]*)$/`,
translated into an anchored matcher that tries every split point. -/
def urlValidationRegex (s : String) : Bool :=
  match stripPfx "http://".data s.data with
  | some rest => matchAfterScheme rest
  | none =>
    match stripPfx "https://".data s.data with
    | some rest => matchAfterScheme rest
    | none => false

/-- ASCII characters permitted in a URL scheme. -/
def isSchemeChar (c : Char) : Bool :=
  c.isAlpha || c.isDigit || c = '+' || c = '-' || c = '.'

/-- Split a character list at its first colon into scheme and remainder. -/
def schemeSplit : List Char → Option (List Char × List Char)
  | [] => none
  | c :: cs =>
    if c = ':' then some ([], cs)
    else
      match schemeSplit cs with
      | some (sch, rest) => some (c :: sch, rest)
      | none => none

/-- Delimiters ending the authority component of a URL. -/
def authorityEnd (c : Char) : Bool :=
  c = '/' || c = '?' || c = '#'

/-- Whitespace code points forbidden in a URL host. -/
def isForbiddenHostChar (c : Char) : Bool :=
  c = ' ' || c = '\t' || c = '\n' || c = '\r'

/-- Modelled from the spec: the well-formed-absolute-URL check performed by
the browser builtin `new URL(url)` (WHATWG URL parsing), which is not part of
the repository source. A scheme (ASCII letter followed by letters, digits,
`+`, `-`, `.`) terminated by a colon is required; for the special schemes
`http` and `https` (case-insensitively) the remainder must start with `//`
followed by a non-empty authority, delimited by `/`, `?` or `#`, containing
no whitespace; other schemes are accepted as opaque URLs. -/
def parsesAsURL (s : String) : Bool :=
  match schemeSplit s.data with
  | none => false
  | some (sch, rest) =>
    match sch with
    | [] => false
    | c0 :: _ =>
      c0.isAlpha && sch.all isSchemeChar &&
      (!(sch.map Char.toLower == "http".data || sch.map Char.toLower == "https".data) ||
       (match rest with
        | '/' :: '/' :: r2 =>
          (!(r2.takeWhile (fun c => !authorityEnd c)).isEmpty) &&
          (r2.takeWhile (fun c => !authorityEnd c)).all (fun c => !isForbiddenHostChar c)
        | _ => false))

/-- Modelled from the spec: the host (authority) component a WHATWG URL
parser would extract from a hierarchical URL, used to state the claim about
dot-separated host labels. -/
def urlHost (s : String) : String :=
  match schemeSplit s.data with
  | some (_, '/' :: '/' :: r2) => String.mk (r2.takeWhile (fun c => !authorityEnd c))
  | _ => ""

/-- A character list contains at least one dot with a non-dot character on
each side, i.e. a dot-separated label pair such as `x.y`. -/
def hasLabelPair : List Char → Bool
  | a :: '.' :: b :: rest => (a != '.' && b != '.') || hasLabelPair ('.' :: b :: rest)
  | _ :: rest => hasLabelPair rest
  | [] => false

/-- The two validation failures of `validateAndNormalizeURL`
(app.js 104-112): empty trimmed input, and a normalized string rejected by
the URL check. -/
inductive ValidationError where
  | emptyInput
  | invalidFormat
  deriving DecidableEq, Repr

/-- `isValidURL(url)` (app.js 86-93): `new URL(url)` must not throw and the
validation regex must match. -/
def isValidURL (url : String) : Bool :=
  parsesAsURL url && urlValidationRegex url

/-- `normalizeURL(url)` (app.js 95-101): prepend `https://` when the
case-insensitive `http(s)://` scheme test fails. -/
def normalizeURL (url : String) : String :=
  if hasHttpScheme url then url else "https://" ++ url

/-- `validateAndNormalizeURL(url)` (app.js 103-115): reject empty trimmed
input, normalize, then reject anything `isValidURL` refuses. -/
def validateAndNormalizeURL (url : String) : Except ValidationError String :=
  if jsTrim url = "" then Except.error ValidationError.emptyInput
  else
    if isValidURL (normalizeURL (jsTrim url)) then
      Except.ok (normalizeURL (jsTrim url))
    else Except.error ValidationError.invalidFormat

/-- The value stored in `urlDatabase` (app.js 139-144):
`{originalUrl, clickCount, createdAt, id}`; the timestamp is an abstract
tick supplied by the caller in place of `new Date()`. -/
structure UrlRecord where
  originalUrl : String
  clickCount : Nat
  createdAt : Nat
  id : Nat
  deriving DecidableEq, Repr

/-- The mutable state of the `URLShortener` class relevant to the registry:
`this.urlDatabase` (a JavaScript `Map` from short code to record, embedded
as an association list in insertion order) and `this.nextId` (app.js 7-8). -/
structure Shortener where
  urlDatabase : List (String × UrlRecord)
  nextId : Nat
  deriving DecidableEq, Repr

/-- The state after the constructor runs (app.js 7-8): empty map, counter 1. -/
def initialState : Shortener :=
  { urlDatabase := [], nextId := 1 }

/-- `Map.prototype.get`: the value at the first matching key, if any. -/
def mapGet (db : List (String × UrlRecord)) (k : String) : Option UrlRecord :=
  match db with
  | [] => none
  | (k₀, v₀) :: rest => if k₀ = k then some v₀ else mapGet rest k

/-- `Map.prototype.set`: replace the value at an existing key in place,
otherwise append the new entry at the end. -/
def mapSet (db : List (String × UrlRecord)) (k : String) (v : UrlRecord) :
    List (String × UrlRecord) :=
  match db with
  | [] => [(k, v)]
  | (k₀, v₀) :: rest => if k₀ = k then (k, v) :: rest else (k₀, v₀) :: mapSet rest k v

/-- The state transition and result of `shortenURL` (app.js 118-161),
stripped of its DOM concerns: validate the input; on success consume
`this.nextId++`, encode it, and store the fresh record; on failure leave the
state untouched. Returns the short code (the alias) on success. -/
def shortenURL (st : Shortener) (input : String) (now : Nat) :
    Except ValidationError String × Shortener :=
  match validateAndNormalizeURL input with
  | Except.error e => (Except.error e, st)
  | Except.ok originalUrl =>
    let id := st.nextId
    let shortCode := encodeBase62 id
    (Except.ok shortCode,
     { urlDatabase :=
         mapSet st.urlDatabase shortCode
           { originalUrl := originalUrl, clickCount := 0, createdAt := now, id := id },
       nextId := id + 1 })

/-- The state transition and result of `redirectToOriginal` (app.js 235-259),
stripped of its DOM concerns: look the short code up; if present increment
the record's `clickCount` in place and return the mutated record, otherwise
report not-found and leave the state untouched. -/
def redirectToOriginal (st : Shortener) (shortCode : String) :
    Option UrlRecord × Shortener :=
  match mapGet st.urlDatabase shortCode with
  | none => (none, st)
  | some urlData =>
    let bumped := { urlData with clickCount := urlData.clickCount + 1 }
    (some bumped, { st with urlDatabase := mapSet st.urlDatabase shortCode bumped })

/-- The statistics computed by `updateStats` (app.js 288-295):
`this.urlDatabase.size` and the `reduce` of `clickCount` over the values. -/
def updateStats (st : Shortener) : Nat × Nat :=
  (st.urlDatabase.length,
   (st.urlDatabase.map (fun e => e.2.clickCount)).foldl (fun sum c => sum + c) 0)

/-- The digit list `encodeBase62` produces for `num` (empty for 0): the
loop of app.js 77-81 run with sufficient fuel. -/
def digits62 (num : Nat) : List Char :=
  encodeBase62Aux num num []

/-- Numeric value of a base-62 digit character; inverse to `digitChar62`
on the alphabet. -/
def charVal62 (c : Char) : Nat :=
  if c.isDigit then c.toNat - 48
  else if c.isUpper then c.toNat - 55
  else c.toNat - 61

/-- Value of a most-significant-digit-first base-62 digit string. -/
def decodeDigits (l : List Char) : Nat :=
  l.foldl (fun a c => a * 62 + charVal62 c) 0

/-- Strict lexicographic order on character lists, characters compared by
code point — which on the base-62 alphabet `0-9A-Za-z` agrees with alphabet
order, since the three blocks appear in ascending ASCII position. -/
def lexLt : List Char → List Char → Bool
  | [], [] => false
  | [], _ :: _ => true
  | _ :: _, [] => false
  | a :: as, b :: bs => decide (a < b) || (a == b && lexLt as bs)

/-- Length-then-lexicographic (shortlex) strict order on strings: a shorter
code precedes every longer one, codes of equal length compare
lexicographically. -/
def shortlexLt (s t : String) : Prop :=
  s.data.length < t.data.length ∨
    (s.data.length = t.data.length ∧ lexLt s.data t.data = true)

/-- The character set the specification's wording says the validator
permits: alphanumerics together with hyphen, underscore, dot, tilde, colon,
slash, question mark, hash, square brackets, at sign, exclamation mark,
dollar, ampersand, apostrophe (written by code point 39), parentheses,
asterisk, plus, comma, semicolon, equals and percent. Stated from the
spec's words, to be compared with the source's regex. -/
def specAllowedChar (c : Char) : Bool :=
  c.isAlpha || c.isDigit || c = '-' || c = '_' || c = '.' || c = '~' ||
  c = ':' || c = '/' || c = '?' || c = '#' || c = '[' || c = ']' ||
  c = '@' || c = '!' || c = '$' || c = '&' || c.toNat = 39 ||
  c = '(' || c = ')' || c = '*' || c = '+' || c = ',' || c = ';' ||
  c = '=' || c = '%'

/-- Registry states reachable from the constructor state by the two
state-changing operations: registration (`shortenURL`, with any raw input
and timestamp) and resolution (`redirectToOriginal`). -/
inductive Reachable : Shortener → Prop
  | init : Reachable initialState
  | register (st : Shortener) (input : String) (now : Nat) :
      Reachable st → Reachable (shortenURL st input now).2
  | resolve (st : Shortener) (code : String) :
      Reachable st → Reachable (redirectToOriginal st code).2

/-- The registry invariant on a database and counter: the counter is at
least 1, every stored entry is keyed by the encoding of its positive
sequence id, all stored ids lie below the counter, and both the keys and
the ids are duplicate-free. -/
def GoodDb (db : List (String × UrlRecord)) (nid : Nat) : Prop :=
  1 ≤ nid ∧
  (∀ e ∈ db, e.1 = encodeBase62 e.2.id ∧ 1 ≤ e.2.id ∧ e.2.id < nid) ∧
  (db.map Prod.fst).Nodup ∧
  (db.map (fun e => e.2.id)).Nodup

/-- The registry invariant of a shortener state. -/
def GoodState (st : Shortener) : Prop :=
  GoodDb st.urlDatabase st.nextId

theorem mapGet_mapSet_self (db : List (String × UrlRecord)) (k : String) (v : UrlRecord) :
    mapGet (mapSet db k v) k = some v := by
  induction db with
  | nil => simp [mapGet, mapSet]
  | cons e rest ih =>
    obtain ⟨k₀, v₀⟩ := e
    by_cases h : k₀ = k <;> simp [mapGet, mapSet, h, ih]

theorem mapGet_mapSet_ne (db : List (String × UrlRecord)) (k k' : String) (v : UrlRecord)
    (hne : k' ≠ k) : mapGet (mapSet db k v) k' = mapGet db k' := by
  have hne' : k ≠ k' := Ne.symm hne
  induction db with
  | nil => simp [mapGet, mapSet, hne']
  | cons e rest ih =>
    obtain ⟨k₀, v₀⟩ := e
    by_cases h : k₀ = k
    · subst h
      simp [mapGet, mapSet, hne']
    · simp only [mapSet, if_neg h, mapGet, ih]

theorem mapSet_of_get_none (db : List (String × UrlRecord)) (k : String) (v : UrlRecord)
    (h : mapGet db k = none) : mapSet db k v = db ++ [(k, v)] := by
  induction db with
  | nil => simp [mapSet]
  | cons e rest ih =>
    obtain ⟨k₀, v₀⟩ := e
    by_cases hk : k₀ = k
    · simp [mapGet, hk] at h
    · simp only [mapGet, if_neg hk] at h
      simp [mapSet, hk, ih h]

theorem mapGet_some_mem (db : List (String × UrlRecord)) (k : String) (r : UrlRecord)
    (h : mapGet db k = some r) : (k, r) ∈ db := by
  induction db with
  | nil => simp [mapGet] at h
  | cons e rest ih =>
    obtain ⟨k₀, v₀⟩ := e
    by_cases hk : k₀ = k
    · subst hk
      simp [mapGet] at h
      simp [h]
    · simp only [mapGet, if_neg hk] at h
      exact List.mem_cons_of_mem _ (ih h)

theorem mem_mapSet (db : List (String × UrlRecord)) (k : String) (v : UrlRecord) :
    ∀ e ∈ mapSet db k v, e = (k, v) ∨ e ∈ db := by
  induction db with
  | nil => simp [mapSet]
  | cons e₀ rest ih =>
    obtain ⟨k₀, v₀⟩ := e₀
    by_cases hk : k₀ = k
    · intro e he
      simp only [mapSet, if_pos hk] at he
      rcases List.mem_cons.1 he with h | h
      · exact Or.inl h
      · exact Or.inr (List.mem_cons_of_mem _ h)
    · intro e he
      simp only [mapSet, if_neg hk] at he
      rcases List.mem_cons.1 he with h | h
      · exact Or.inr (by simp [h])
      · rcases ih e h with h' | h'
        · exact Or.inl h'
        · exact Or.inr (List.mem_cons_of_mem _ h')

theorem keys_mapSet_of_get_some (db : List (String × UrlRecord)) (k : String)
    (r v : UrlRecord) (h : mapGet db k = some r) :
    (mapSet db k v).map Prod.fst = db.map Prod.fst := by
  induction db with
  | nil => simp [mapGet] at h
  | cons e rest ih =>
    obtain ⟨k₀, v₀⟩ := e
    by_cases hk : k₀ = k
    · subst hk
      simp [mapSet]
    · simp only [mapGet, if_neg hk] at h
      simp [mapSet, if_neg hk, ih h]

theorem ids_mapSet_of_get_some (db : List (String × UrlRecord)) (k : String)
    (r v : UrlRecord) (h : mapGet db k = some r) (hid : v.id = r.id) :
    (mapSet db k v).map (fun e => e.2.id) = db.map (fun e => e.2.id) := by
  induction db with
  | nil => simp [mapGet] at h
  | cons e rest ih =>
    obtain ⟨k₀, v₀⟩ := e
    by_cases hk : k₀ = k
    · subst hk
      simp [mapGet] at h
      simp [mapSet, hid, h]
    · simp only [mapGet, if_neg hk] at h
      simp [mapSet, if_neg hk, ih h]

theorem length_mapSet_of_get_some (db : List (String × UrlRecord)) (k : String)
    (r v : UrlRecord) (h : mapGet db k = some r) :
    (mapSet db k v).length = db.length := by
  have := keys_mapSet_of_get_some db k r v h
  have h1 : ((mapSet db k v).map Prod.fst).length = (db.map Prod.fst).length := by rw [this]
  simpa using h1

theorem mapGet_eq_none_of_keys (db : List (String × UrlRecord)) (k : String)
    (h : ∀ e ∈ db, e.1 ≠ k) : mapGet db k = none := by
  induction db with
  | nil => simp [mapGet]
  | cons e rest ih =>
    obtain ⟨k₀, v₀⟩ := e
    have hk : k₀ ≠ k := h (k₀, v₀) (by simp)
    simp only [mapGet, if_neg hk]
    exact ih fun e he => h e (List.mem_cons_of_mem _ he)

theorem foldl_add_from (l : List Nat) : ∀ a, l.foldl (fun sum c => sum + c) a = a + l.sum := by
  induction l with
  | nil => intro a; simp
  | cons c cs ih =>
    intro a
    simp only [List.foldl_cons, List.sum_cons, ih]
    omega

/-- C7: `validateAndNormalizeURL` fails with `EmptyInput` exactly when the
trimmed input is empty; a trimmed input without a case-insensitive
`http://`/`https://` scheme gets `https://` prepended before checking; and
the spec's three vectors hold: `"example.com"` normalizes to
`"https://example.com"`, `""` fails with `EmptyInput`, `"not a url"` fails
with `InvalidFormat`. -/
theorem validateAndNormalizeURL_empty_and_scheme :
    (∀ s, validateAndNormalizeURL s = Except.error ValidationError.emptyInput ↔
      jsTrim s = "") ∧
    (∀ s, hasHttpScheme (jsTrim s) = false →
      normalizeURL (jsTrim s) = "https://" ++ jsTrim s) ∧
    validateAndNormalizeURL "example.com" = Except.ok "https://example.com" ∧
    validateAndNormalizeURL "" = Except.error ValidationError.emptyInput ∧
    validateAndNormalizeURL "not a url" = Except.error ValidationError.invalidFormat := by
  refine ⟨?_, ?_, rfl, rfl, rfl⟩
  · intro s
    unfold validateAndNormalizeURL
    by_cases h : jsTrim s = ""
    · simp [h]
    · rw [if_neg h]
      by_cases hv : isValidURL (normalizeURL (jsTrim s)) = true
      · simp [hv, h]
      · simp only [Bool.not_eq_true] at hv
        simp [hv, h]
  · intro s h
    unfold normalizeURL
    simp [h]

/-- C7 witness at `"example.com"`: its trimmed form lacks a scheme and gets
`https://` prepended. -/
theorem validateAndNormalizeURL_empty_and_scheme_witness :
    hasHttpScheme (jsTrim "example.com") = false ∧
    normalizeURL (jsTrim "example.com") = "https://" ++ jsTrim "example.com" :=
  ⟨rfl, validateAndNormalizeURL_empty_and_scheme.2.1 "example.com" rfl⟩

/-- C10: whenever the trimmed input passes the case-insensitive scheme test
but does not literally start with lowercase `http://` or `https://` (an
upper- or mixed-case scheme), `normalizeURL` prepends nothing, yet
validation fails with `InvalidFormat`, because the validation regex matches
the scheme case-sensitively. -/
theorem mixedCaseScheme_invalidFormat :
    ∀ s, hasHttpScheme (jsTrim s) = true →
      (stripPfx "http://".data (jsTrim s).data).isSome = false →
      (stripPfx "https://".data (jsTrim s).data).isSome = false →
      normalizeURL (jsTrim s) = jsTrim s ∧
      validateAndNormalizeURL s = Except.error ValidationError.invalidFormat := by
  intro s h1 h2 h3
  have hnorm : normalizeURL (jsTrim s) = jsTrim s := by simp [normalizeURL, h1]
  refine ⟨hnorm, ?_⟩
  have h2' : stripPfx "http://".data (jsTrim s).data = none := by
    cases hE : stripPfx "http://".data (jsTrim s).data with
    | none => rfl
    | some r => rw [hE] at h2; simp at h2
  have h3' : stripPfx "https://".data (jsTrim s).data = none := by
    cases hE : stripPfx "https://".data (jsTrim s).data with
    | none => rfl
    | some r => rw [hE] at h3; simp at h3
  have hregex : urlValidationRegex (jsTrim s) = false := by
    unfold urlValidationRegex
    rw [h2', h3']
  have hvalid : isValidURL (normalizeURL (jsTrim s)) = false := by
    rw [hnorm]
    unfold isValidURL
    rw [hregex]
    simp
  have hne : ¬ jsTrim s = "" := by
    intro he
    rw [he] at h1
    exact absurd h1 (by decide)
  unfold validateAndNormalizeURL
  rw [if_neg hne, if_neg (by simp [hvalid])]

/-- C10 witness at `"HTTP://example.com"`. -/
theorem mixedCaseScheme_invalidFormat_witness :
    normalizeURL (jsTrim "HTTP://example.com") = jsTrim "HTTP://example.com" ∧
    validateAndNormalizeURL "HTTP://example.com" =
      Except.error ValidationError.invalidFormat :=
  mixedCaseScheme_invalidFormat "HTTP://example.com" rfl rfl rfl

/-- C3 counterexample: `"https://example.com/a!b"` consists only of
characters the claim's set permits, parses as an absolute URL whose host
`example.com` has a dot-separated label pair, and needs no normalization —
yet the validator rejects it with `InvalidFormat`, because the source's
regex admits no `!` anywhere. -/
theorem validator_charset_cex :
    validateAndNormalizeURL "https://example.com/a!b" =
      Except.error ValidationError.invalidFormat ∧
    jsTrim "https://example.com/a!b" = "https://example.com/a!b" ∧
    normalizeURL "https://example.com/a!b" = "https://example.com/a!b" ∧
    parsesAsURL "https://example.com/a!b" = true ∧
    urlHost "https://example.com/a!b" = "example.com" ∧
    hasLabelPair (urlHost "https://example.com/a!b").data = true ∧
    "https://example.com/a!b".data.all specAllowedChar = true :=
  ⟨rfl, rfl, rfl, rfl, rfl, rfl, rfl⟩

/-- C3 (amended): for inputs with non-empty trimmed form the validator fails
with `InvalidFormat` exactly when the normalized string fails the modelled
URL parse or fails the source's validation regex (which is stricter than the
spec's character-set description); on success it returns the normalized
string unchanged. -/
theorem validateAndNormalizeURL_invalidFormat_iff :
    ∀ s, jsTrim s ≠ "" →
      (validateAndNormalizeURL s = Except.error ValidationError.invalidFormat ↔
        ¬(parsesAsURL (normalizeURL (jsTrim s)) = true ∧
          urlValidationRegex (normalizeURL (jsTrim s)) = true)) ∧
      (∀ r, validateAndNormalizeURL s = Except.ok r → r = normalizeURL (jsTrim s)) := by
  intro s hne
  unfold validateAndNormalizeURL
  rw [if_neg hne]
  by_cases hv : isValidURL (normalizeURL (jsTrim s)) = true
  · have hv' := hv
    unfold isValidURL at hv'
    rw [Bool.and_eq_true] at hv'
    constructor
    · simp [hv, hv']
    · intro r hr
      rw [if_pos hv] at hr
      exact (Except.ok.inj hr).symm
  · have hv' : ¬(parsesAsURL (normalizeURL (jsTrim s)) = true ∧
        urlValidationRegex (normalizeURL (jsTrim s)) = true) := by
      intro hc
      exact hv (by unfold isValidURL; rw [Bool.and_eq_true]; exact hc)
    constructor
    · simp [hv, hv']
    · intro r hr
      rw [if_neg hv] at hr
      exact absurd hr (by simp)

/-- C3 amended-claim witness at `"https://a.com"`. -/
theorem validateAndNormalizeURL_invalidFormat_iff_witness :
    jsTrim "https://a.com" ≠ "" ∧
    (validateAndNormalizeURL "https://a.com" =
        Except.error ValidationError.invalidFormat ↔
      ¬(parsesAsURL (normalizeURL (jsTrim "https://a.com")) = true ∧
        urlValidationRegex (normalizeURL (jsTrim "https://a.com")) = true)) :=
  ⟨by decide, (validateAndNormalizeURL_invalidFormat_iff "https://a.com" (by decide)).1⟩

theorem resolve_step (st : Shortener) (k : String) (r : UrlRecord)
    (h : mapGet st.urlDatabase k = some r) :
    (redirectToOriginal st k).1 = some { r with clickCount := r.clickCount + 1 } ∧
    mapGet (redirectToOriginal st k).2.urlDatabase k =
      some { r with clickCount := r.clickCount + 1 } ∧
    (redirectToOriginal st k).2.nextId = st.nextId := by
  simp [redirectToOriginal, h, mapGet_mapSet_self]

/-- C1 counterexample: resolve increments before returning, so the very
first resolve after registering `https://a.com` (alias `"1"`) already
returns a record with `clickCount = 1`; the claim's `visitCount == 0` for
that call is false. -/
theorem resolve_after_register_cex :
    (redirectToOriginal (shortenURL initialState "https://a.com" 0).2 "1").1 =
      some { originalUrl := "https://a.com", clickCount := 1, createdAt := 0, id := 1 } ∧
    Option.map UrlRecord.clickCount
      (redirectToOriginal (shortenURL initialState "https://a.com" 0).2 "1").1 ≠
      some 0 :=
  ⟨rfl, by decide⟩

/-- C1 (amended): immediately after a successful registration the stored
record has `visitCount = 0`; `resolve` returns the already-incremented
record, so three successive resolves of that alias return records with
`visitCount` 1, then 2, then 3. -/
theorem register_then_resolve_counts :
    ∀ st input now u, validateAndNormalizeURL input = Except.ok u →
      mapGet (shortenURL st input now).2.urlDatabase (encodeBase62 st.nextId) =
        some { originalUrl := u, clickCount := 0, createdAt := now, id := st.nextId } ∧
      (redirectToOriginal (shortenURL st input now).2 (encodeBase62 st.nextId)).1 =
        some { originalUrl := u, clickCount := 1, createdAt := now, id := st.nextId } ∧
      (redirectToOriginal (redirectToOriginal (shortenURL st input now).2
          (encodeBase62 st.nextId)).2 (encodeBase62 st.nextId)).1 =
        some { originalUrl := u, clickCount := 2, createdAt := now, id := st.nextId } ∧
      (redirectToOriginal (redirectToOriginal (redirectToOriginal
          (shortenURL st input now).2 (encodeBase62 st.nextId)).2
          (encodeBase62 st.nextId)).2 (encodeBase62 st.nextId)).1 =
        some { originalUrl := u, clickCount := 3, createdAt := now, id := st.nextId } := by
  intro st input now u hval
  have h0 : mapGet (shortenURL st input now).2.urlDatabase (encodeBase62 st.nextId) =
      some { originalUrl := u, clickCount := 0, createdAt := now, id := st.nextId } := by
    simp [shortenURL, hval, mapGet_mapSet_self]
  have s1 := resolve_step _ _ _ h0
  have s2 := resolve_step _ _ _ s1.2.1
  have s3 := resolve_step _ _ _ s2.2.1
  exact ⟨h0, s1.1, s2.1, s3.1⟩

/-- C1 amended-claim witness: registering `https://a.com` in the initial
state and resolving three times. -/
theorem register_then_resolve_counts_witness :
    mapGet (shortenURL initialState "https://a.com" 0).2.urlDatabase
        (encodeBase62 initialState.nextId) =
      some { originalUrl := "https://a.com", clickCount := 0, createdAt := 0,
             id := initialState.nextId } ∧
    (redirectToOriginal (shortenURL initialState "https://a.com" 0).2
        (encodeBase62 initialState.nextId)).1 =
      some { originalUrl := "https://a.com", clickCount := 1, createdAt := 0,
             id := initialState.nextId } :=
  ⟨(register_then_resolve_counts initialState "https://a.com" 0 "https://a.com" rfl).1,
   (register_then_resolve_counts initialState "https://a.com" 0 "https://a.com" rfl).2.1⟩

/-- C4: resolving a present alias increments exactly that record's count by
one, changes nothing else (other keys and the sequence counter are
untouched) and returns the mutated record; resolving an absent alias
returns not-found and leaves the state — in particular the statistics —
unchanged. -/
theorem resolve_found_and_notfound :
    ∀ st shortCode,
      (∀ r, mapGet st.urlDatabase shortCode = some r →
        redirectToOriginal st shortCode =
          (some { r with clickCount := r.clickCount + 1 },
           { st with urlDatabase :=
               mapSet st.urlDatabase shortCode { r with clickCount := r.clickCount + 1 } }) ∧
        mapGet (redirectToOriginal st shortCode).2.urlDatabase shortCode =
          some { r with clickCount := r.clickCount + 1 } ∧
        (∀ a, a ≠ shortCode →
          mapGet (redirectToOriginal st shortCode).2.urlDatabase a =
            mapGet st.urlDatabase a) ∧
        (redirectToOriginal st shortCode).2.nextId = st.nextId) ∧
      (mapGet st.urlDatabase shortCode = none →
        redirectToOriginal st shortCode = (none, st) ∧
        updateStats (redirectToOriginal st shortCode).2 = updateStats st) := by
  intro st shortCode
  constructor
  · intro r h
    refine ⟨by simp [redirectToOriginal, h], ?_, ?_, ?_⟩
    · simp [redirectToOriginal, h, mapGet_mapSet_self]
    · intro a ha
      simp [redirectToOriginal, h, mapGet_mapSet_ne _ _ _ _ ha]
    · simp [redirectToOriginal, h]
  · intro h
    simp [redirectToOriginal, h]

/-- C4 witness: a one-entry registry, resolved at its only alias and at a
missing one. -/
theorem resolve_found_and_notfound_witness :
    redirectToOriginal
        ⟨[("1", ⟨"https://a.com", 0, 0, 1⟩)], 2⟩ "1" =
      (some ⟨"https://a.com", 1, 0, 1⟩,
       ⟨[("1", ⟨"https://a.com", 1, 0, 1⟩)], 2⟩) ∧
    redirectToOriginal ⟨[("1", ⟨"https://a.com", 0, 0, 1⟩)], 2⟩ "x" =
      (none, ⟨[("1", ⟨"https://a.com", 0, 0, 1⟩)], 2⟩) :=
  ⟨((resolve_found_and_notfound ⟨[("1", ⟨"https://a.com", 0, 0, 1⟩)], 2⟩ "1").1
      ⟨"https://a.com", 0, 0, 1⟩ rfl).1,
   ((resolve_found_and_notfound ⟨[("1", ⟨"https://a.com", 0, 0, 1⟩)], 2⟩ "x").2 rfl).1⟩

/-- C8: `updateStats` reports the number of entries of the mapping and the
sum of `clickCount` over all records; after three registrations and five
cumulative resolves it reports `(3, 5)`. -/
theorem updateStats_spec :
    (∀ st, updateStats st =
      (st.urlDatabase.length, (st.urlDatabase.map (fun e => e.2.clickCount)).sum)) ∧
    updateStats
      (redirectToOriginal (redirectToOriginal (redirectToOriginal (redirectToOriginal
        (redirectToOriginal
          (shortenURL (shortenURL (shortenURL initialState
            "https://a.com" 0).2 "https://b.com" 1).2 "https://c.com" 2).2
          "1").2 "1").2 "2").2 "3").2 "3").2 = (3, 5) := by
  constructor
  · intro st
    unfold updateStats
    rw [foldl_add_from]
    simp
  · rfl

/-- C9: a submission that fails validation leaves the registry state
completely unchanged — no sequence number is consumed and the mapping is
untouched — so a later successful registration still receives the next
unbroken sequence number. -/
theorem failed_validation_preserves_state :
    ∀ st input now e, validateAndNormalizeURL input = Except.error e →
      shortenURL st input now = (Except.error e, st) ∧
      (∀ input2 now2 u, validateAndNormalizeURL input2 = Except.ok u →
        (shortenURL (shortenURL st input now).2 input2 now2).1 =
          Except.ok (encodeBase62 st.nextId) ∧
        (shortenURL (shortenURL st input now).2 input2 now2).2.nextId =
          st.nextId + 1) := by
  intro st input now e h
  have h0 : shortenURL st input now = (Except.error e, st) := by simp [shortenURL, h]
  refine ⟨h0, ?_⟩
  intro input2 now2 u h2
  rw [h0]
  simp [shortenURL, h2]

/-- C9 witness: an empty submission in the initial state, followed by a
valid one, which still receives sequence number 1. -/
theorem failed_validation_preserves_state_witness :
    shortenURL initialState "" 0 =
      (Except.error ValidationError.emptyInput, initialState) ∧
    (shortenURL (shortenURL initialState "" 0).2 "https://a.com" 1).1 =
      Except.ok (encodeBase62 initialState.nextId) :=
  ⟨(failed_validation_preserves_state initialState "" 0 ValidationError.emptyInput rfl).1,
   ((failed_validation_preserves_state initialState "" 0 ValidationError.emptyInput rfl).2
      "https://a.com" 1 "https://a.com" rfl).1⟩

theorem encodeBase62Aux_zero (fuel : Nat) (acc : List Char) :
    encodeBase62Aux fuel 0 acc = acc := by
  cases fuel <;> simp [encodeBase62Aux]

theorem encodeBase62Aux_append (fuel : Nat) :
    ∀ num acc, encodeBase62Aux fuel num acc = encodeBase62Aux fuel num [] ++ acc := by
  induction fuel with
  | zero => intro num acc; simp [encodeBase62Aux]
  | succ f ih =>
    intro num acc
    by_cases h : num = 0
    · simp [encodeBase62Aux, h]
    · simp only [encodeBase62Aux, if_neg h]
      rw [ih (num / 62) (digitChar62 (num % 62) :: acc),
        ih (num / 62) [digitChar62 (num % 62)]]
      simp

theorem encodeBase62Aux_fuel (f : Nat) :
    ∀ g num, num ≤ f → num ≤ g →
      encodeBase62Aux f num [] = encodeBase62Aux g num [] := by
  induction f with
  | zero =>
    intro g num hf _
    have : num = 0 := Nat.le_zero.mp hf
    subst this
    rw [encodeBase62Aux_zero, encodeBase62Aux_zero]
  | succ f ih =>
    intro g num hf hg
    by_cases h : num = 0
    · subst h
      rw [encodeBase62Aux_zero, encodeBase62Aux_zero]
    · obtain ⟨g', rfl⟩ : ∃ g', g = g' + 1 := ⟨g - 1, by omega⟩
      have hdiv : num / 62 < num := Nat.div_lt_self (Nat.pos_of_ne_zero h) (by norm_num)
      simp only [encodeBase62Aux, if_neg h]
      rw [encodeBase62Aux_append f, encodeBase62Aux_append g',
        ih g' (num / 62) (by omega) (by omega)]

theorem digits62_zero : digits62 0 = [] := rfl

theorem digits62_eq (num : Nat) (h : num ≠ 0) :
    digits62 num = digits62 (num / 62) ++ [digitChar62 (num % 62)] := by
  obtain ⟨m, rfl⟩ : ∃ m, num = m + 1 := ⟨num - 1, by omega⟩
  have hdiv : (m + 1) / 62 < m + 1 := Nat.div_lt_self (by omega) (by norm_num)
  show encodeBase62Aux (m + 1) (m + 1) [] = _
  simp only [encodeBase62Aux, if_neg h]
  rw [encodeBase62Aux_append m]
  unfold digits62
  rw [encodeBase62Aux_fuel m ((m + 1) / 62) ((m + 1) / 62) (by omega) (le_refl _)]

theorem charVal62_digitChar62 : ∀ d, d < 62 → charVal62 (digitChar62 d) = d := by decide

theorem digitChar62_lt : ∀ d₁, d₁ < 62 → ∀ d₂, d₂ < 62 → d₁ < d₂ →
    digitChar62 d₁ < digitChar62 d₂ := by decide

theorem decodeDigits_digits62 : ∀ num, decodeDigits (digits62 num) = num := by
  intro num
  induction num using Nat.strong_induction_on with
  | _ num ih =>
    by_cases h : num = 0
    · subst h; rfl
    · rw [digits62_eq num h]
      unfold decodeDigits
      rw [List.foldl_append]
      have hq : num / 62 < num := Nat.div_lt_self (Nat.pos_of_ne_zero h) (by norm_num)
      have hrec := ih (num / 62) hq
      unfold decodeDigits at hrec
      simp only [List.foldl_cons, List.foldl_nil, hrec]
      rw [charVal62_digitChar62 (num % 62) (Nat.mod_lt _ (by norm_num))]
      omega

theorem digits62_length_mono : ∀ m, ∀ n, n ≤ m →
    (digits62 n).length ≤ (digits62 m).length := by
  intro m
  induction m using Nat.strong_induction_on with
  | _ m ih =>
    intro n hnm
    by_cases hn : n = 0
    · subst hn
      rw [digits62_zero]
      exact Nat.zero_le _
    · have hm : m ≠ 0 := by omega
      rw [digits62_eq n hn, digits62_eq m hm]
      simp only [List.length_append, List.length_cons, List.length_nil]
      have hq : n / 62 ≤ m / 62 := Nat.div_le_div_right hnm
      have hm' : m / 62 < m := Nat.div_lt_self (Nat.pos_of_ne_zero hm) (by norm_num)
      have := ih (m / 62) hm' (n / 62) hq
      omega

theorem digits62_eq_nil (n : Nat) (h : digits62 n = []) : n = 0 := by
  have := decodeDigits_digits62 n
  rw [h] at this
  simpa [decodeDigits] using this.symm

theorem lexLt_append_last (xs : List Char) (a b : Char) (h : a < b) :
    lexLt (xs ++ [a]) (xs ++ [b]) = true := by
  induction xs with
  | nil => simp [lexLt, h]
  | cons x xs ih => simp [lexLt, ih]

theorem lexLt_append_of (xs : List Char) : ∀ ys a b, xs.length = ys.length →
    lexLt xs ys = true → lexLt (xs ++ [a]) (ys ++ [b]) = true := by
  induction xs with
  | nil =>
    intro ys a b hlen hlex
    cases ys with
    | nil => simp [lexLt] at hlex
    | cons y ys => simp at hlen
  | cons x xs ih =>
    intro ys a b hlen hlex
    cases ys with
    | nil => simp at hlen
    | cons y ys =>
      simp only [List.length_cons] at hlen
      simp only [lexLt, Bool.or_eq_true, Bool.and_eq_true, decide_eq_true_eq,
        beq_iff_eq] at hlex
      rcases hlex with h | ⟨hxy, hrec⟩
      · simp [lexLt, h]
      · have := ih ys a b (by omega) hrec
        simp [lexLt, this, hxy]

theorem digits62_lexLt : ∀ m, ∀ n, 0 < n → n < m →
    (digits62 n).length = (digits62 m).length →
    lexLt (digits62 n) (digits62 m) = true := by
  intro m
  induction m using Nat.strong_induction_on with
  | _ m ih =>
    intro n hn hnm hlen
    have hm : m ≠ 0 := by omega
    have hn' : n ≠ 0 := by omega
    rw [digits62_eq n hn', digits62_eq m hm] at hlen
    simp only [List.length_append, List.length_cons, List.length_nil] at hlen
    have hlen' : (digits62 (n / 62)).length = (digits62 (m / 62)).length := by omega
    have hq : n / 62 ≤ m / 62 := Nat.div_le_div_right (le_of_lt hnm)
    rw [digits62_eq n hn', digits62_eq m hm]
    rcases eq_or_lt_of_le hq with heq | hlt
    · have hr : n % 62 < m % 62 := by omega
      rw [heq]
      exact lexLt_append_last _ _ _
        (digitChar62_lt _ (Nat.mod_lt _ (by norm_num)) _ (Nat.mod_lt _ (by norm_num)) hr)
    · by_cases hq0 : n / 62 = 0
      · exfalso
        rw [hq0, digits62_zero] at hlen'
        have : digits62 (m / 62) = [] := List.length_eq_zero.mp hlen'.symm
        have := digits62_eq_nil (m / 62) this
        omega
      · have hm' : m / 62 < m := Nat.div_lt_self (Nat.pos_of_ne_zero hm) (by norm_num)
        exact lexLt_append_of _ _ _ _ hlen'
          (ih (m / 62) hm' (n / 62) (Nat.pos_of_ne_zero hq0) hlt hlen')

theorem encodeBase62_data (n : Nat) (h : n ≠ 0) : (encodeBase62 n).data = digits62 n := by
  unfold encodeBase62
  rw [if_neg h]
  rfl

theorem encodeBase62_inj (n m : Nat) (hn : 1 ≤ n) (hm : 1 ≤ m)
    (h : encodeBase62 n = encodeBase62 m) : n = m := by
  have hd : (encodeBase62 n).data = (encodeBase62 m).data := congrArg String.data h
  rw [encodeBase62_data n (by omega), encodeBase62_data m (by omega)] at hd
  calc n = decodeDigits (digits62 n) := (decodeDigits_digits62 n).symm
    _ = decodeDigits (digits62 m) := by rw [hd]
    _ = m := decodeDigits_digits62 m

/-- C6: on positive integers the code generator is injective, and its output
is strictly increasing in the length-then-lexicographic (shortlex) order:
longer codes only appear after all shorter codes of lower numeric value are
exhausted. -/
theorem encodeBase62_inj_and_shortlex :
    (∀ n m, 1 ≤ n → 1 ≤ m → n ≠ m → encodeBase62 n ≠ encodeBase62 m) ∧
    (∀ n m, 1 ≤ n → n < m → shortlexLt (encodeBase62 n) (encodeBase62 m)) := by
  constructor
  · intro n m hn hm hne he
    exact hne (encodeBase62_inj n m hn hm he)
  · intro n m hn hnm
    unfold shortlexLt
    rw [encodeBase62_data n (by omega), encodeBase62_data m (by omega)]
    have hle : (digits62 n).length ≤ (digits62 m).length :=
      digits62_length_mono m n (le_of_lt hnm)
    rcases lt_or_eq_of_le hle with hlt | heq
    · exact Or.inl hlt
    · exact Or.inr ⟨heq, digits62_lexLt m n (by omega) hnm heq⟩

/-- C6 witness at 3 and 64: distinct codes, shortlex-increasing. -/
theorem encodeBase62_inj_and_shortlex_witness :
    encodeBase62 3 ≠ encodeBase62 64 ∧ shortlexLt (encodeBase62 3) (encodeBase62 64) :=
  ⟨encodeBase62_inj_and_shortlex.1 3 64 (by decide) (by decide) (by decide),
   encodeBase62_inj_and_shortlex.2 3 64 (by decide) (by decide)⟩

theorem keys_ne_of_mapGet_none (db : List (String × UrlRecord)) (k : String)
    (h : mapGet db k = none) : ∀ e ∈ db, e.1 ≠ k := by
  induction db with
  | nil => simp
  | cons e₀ rest ih =>
    obtain ⟨k₀, v₀⟩ := e₀
    by_cases hk : k₀ = k
    · simp [mapGet, hk] at h
    · simp only [mapGet, if_neg hk] at h
      intro e he
      rcases List.mem_cons.1 he with h' | h'
      · subst h'; exact hk
      · exact ih h e h'

theorem nodup_append_singleton {α : Type} (l : List α) (a : α) (h : l.Nodup)
    (ha : a ∉ l) : (l ++ [a]).Nodup := by
  simp [List.nodup_append, h, ha]

theorem goodDb_fresh (db : List (String × UrlRecord)) (nid : Nat) (h : GoodDb db nid) :
    mapGet db (encodeBase62 nid) = none := by
  apply mapGet_eq_none_of_keys
  intro e he hk
  obtain ⟨hkey, hpos, hlt⟩ := h.2.1 e he
  rw [hkey] at hk
  have := encodeBase62_inj e.2.id nid hpos h.1 hk
  omega

theorem goodDb_insert (db : List (String × UrlRecord)) (nid : Nat) (u : String)
    (now : Nat) (h : GoodDb db nid) :
    GoodDb (mapSet db (encodeBase62 nid)
      { originalUrl := u, clickCount := 0, createdAt := now, id := nid }) (nid + 1) := by
  obtain ⟨h1, h2, h3, h4⟩ := h
  have hfresh : mapGet db (encodeBase62 nid) = none := goodDb_fresh db nid ⟨h1, h2, h3, h4⟩
  have hkeys := keys_ne_of_mapGet_none db (encodeBase62 nid) hfresh
  rw [mapSet_of_get_none _ _ _ hfresh]
  refine ⟨by omega, ?_, ?_, ?_⟩
  · intro e he
    rcases List.mem_append.1 he with h' | h'
    · obtain ⟨ha, hb, hc⟩ := h2 e h'
      exact ⟨ha, hb, by omega⟩
    · simp only [List.mem_singleton] at h'
      subst h'
      exact ⟨rfl, h1, Nat.lt_succ_self nid⟩
  · rw [List.map_append]
    refine nodup_append_singleton _ _ h3 ?_
    intro hmem
    obtain ⟨e, he, heq⟩ := List.mem_map.1 hmem
    exact hkeys e he heq
  · rw [List.map_append]
    refine nodup_append_singleton _ _ h4 ?_
    intro hmem
    obtain ⟨e, he, heq⟩ := List.mem_map.1 hmem
    have := (h2 e he).2.2
    simp only at heq
    omega

theorem goodState_register (st : Shortener) (input : String) (now : Nat)
    (h : GoodState st) : GoodState (shortenURL st input now).2 := by
  cases hv : validateAndNormalizeURL input with
  | error e => simpa [shortenURL, hv] using h
  | ok u =>
    simp only [shortenURL, hv]
    exact goodDb_insert st.urlDatabase st.nextId u now h

theorem goodState_resolve (st : Shortener) (code : String)
    (h : GoodState st) : GoodState (redirectToOriginal st code).2 := by
  obtain ⟨h1, h2, h3, h4⟩ := h
  cases hg : mapGet st.urlDatabase code with
  | none => exact (by simpa [redirectToOriginal, hg] using ⟨h1, h2, h3, h4⟩)
  | some r =>
    simp only [redirectToOriginal, hg]
    show GoodDb (mapSet st.urlDatabase code
      { originalUrl := r.originalUrl, clickCount := r.clickCount + 1,
        createdAt := r.createdAt, id := r.id }) st.nextId
    refine ⟨h1, ?_, ?_, ?_⟩
    · intro e he
      rcases mem_mapSet _ _ _ e he with h' | h'
      · subst h'
        have hmem := mapGet_some_mem _ _ _ hg
        obtain ⟨ha, hb, hc⟩ := h2 (code, r) hmem
        exact ⟨ha, hb, hc⟩
      · exact h2 e h'
    · rw [keys_mapSet_of_get_some _ _ _ _ hg]
      exact h3
    · rw [ids_mapSet_of_get_some st.urlDatabase code r
        { originalUrl := r.originalUrl, clickCount := r.clickCount + 1,
          createdAt := r.createdAt, id := r.id } hg rfl]
      exact h4

theorem reachable_goodState : ∀ st, Reachable st → GoodState st := by
  intro st h
  induction h with
  | init =>
    exact ⟨le_refl 1, fun e he => absurd he (by simp [initialState]),
      by simp [initialState], by simp [initialState]⟩
  | register st input now _ ih => exact goodState_register st input now ih
  | resolve st code _ ih => exact goodState_resolve st code ih

/-- C5: in every reachable registry state the alias keys are unique, the
stored sequence ids are pairwise distinct and strictly below the counter
(so each registration's id exceeds every previously assigned one and none
is reused), registration of a validated destination always succeeds,
consuming exactly one sequence number, and returns an alias not present in
the mapping before the insertion; and registering the spec's three
destinations in order from the initial state yields aliases `"1"`, `"2"`,
`"3"`. -/
theorem registry_invariants :
    (∀ st, Reachable st →
      (st.urlDatabase.map Prod.fst).Nodup ∧
      (st.urlDatabase.map (fun e => e.2.id)).Nodup ∧
      (∀ e ∈ st.urlDatabase, 1 ≤ e.2.id ∧ e.2.id < st.nextId) ∧
      mapGet st.urlDatabase (encodeBase62 st.nextId) = none ∧
      (∀ input now u, validateAndNormalizeURL input = Except.ok u →
        (shortenURL st input now).1 = Except.ok (encodeBase62 st.nextId) ∧
        (shortenURL st input now).2.nextId = st.nextId + 1)) ∧
    ((shortenURL initialState "https://a.com" 0).1 = Except.ok "1" ∧
     (shortenURL (shortenURL initialState "https://a.com" 0).2 "https://b.com" 1).1 =
       Except.ok "2" ∧
     (shortenURL (shortenURL (shortenURL initialState "https://a.com" 0).2
        "https://b.com" 1).2 "https://c.com" 2).1 = Except.ok "3") := by
  constructor
  · intro st hst
    obtain ⟨h1, h2, h3, h4⟩ := reachable_goodState st hst
    refine ⟨h3, h4, fun e he => ⟨(h2 e he).2.1, (h2 e he).2.2⟩,
      goodDb_fresh _ _ ⟨h1, h2, h3, h4⟩, ?_⟩
    intro input now u hv
    constructor
    · simp [shortenURL, hv]
    · simp [shortenURL, hv]
  · exact ⟨rfl, rfl, rfl⟩

/-- C5 witness: the initial state is reachable, its next alias `"1"` is
fresh, and registering `https://a.com` there succeeds with that alias. -/
theorem registry_invariants_witness :
    mapGet initialState.urlDatabase (encodeBase62 initialState.nextId) = none ∧
    (shortenURL initialState "https://a.com" 0).1 =
      Except.ok (encodeBase62 initialState.nextId) :=
  ⟨(registry_invariants.1 initialState Reachable.init).2.2.2.1,
   ((registry_invariants.1 initialState Reachable.init).2.2.2.2
      "https://a.com" 0 "https://a.com" rfl).1⟩

end UrlShortner
